import Mathlib

/-!
Shallow embedding of `src/main.rs` (gazure/protour): a game-log parsing and
aggregation engine.  Rust `u32` counters are modelled as `Nat` (the program
only ever adds small counts; the claims below do not involve overflow).
Rust's `str::split(' ')` is modelled by `splitSpace` on `List Char`, and
`str::to_uppercase` by ASCII per-character uppercasing (all recognized
tokens are ASCII).
-/

namespace Protour

/-- The `GameParseError` type from the source (the `strum::ParseError`
payload is collapsed to a unit marker, as the code never inspects it). -/
inductive GameParseError
  | Color (s : String)
  | Archetype (s : String)
  | Other
  | StrumError
  deriving DecidableEq, Repr

deriving instance DecidableEq for Except

/-- The `ColorIdentity` enum, in declaration order. -/
inductive ColorIdentity
  | White | Black | Red | Green | Blue
  | Uw | Ub | Ur | Ug | Rg | Rw | Rb | Gw | Gb | Bw
  | Naya | Grixis | Esper | Bant | Jund
  | Abzan | Jeskai | Sultai | Mardu | Temur
  | FourColor | FiveColor
  deriving DecidableEq, Repr

/-- Model of strum's derived `EnumString` for `ColorIdentity`: exact (case-sensitive)
match on the variant name, except `FourColor`/`FiveColor` which carry
`#[strum(serialize = "4c")]` / `#[strum(serialize = "5c")]` and hence match
only those serializations. -/
def ColorIdentity.fromStr (s : String) : Option ColorIdentity :=
  if s = "White" then some .White
  else if s = "Black" then some .Black
  else if s = "Red" then some .Red
  else if s = "Green" then some .Green
  else if s = "Blue" then some .Blue
  else if s = "Uw" then some .Uw
  else if s = "Ub" then some .Ub
  else if s = "Ur" then some .Ur
  else if s = "Ug" then some .Ug
  else if s = "Rg" then some .Rg
  else if s = "Rw" then some .Rw
  else if s = "Rb" then some .Rb
  else if s = "Gw" then some .Gw
  else if s = "Gb" then some .Gb
  else if s = "Bw" then some .Bw
  else if s = "Naya" then some .Naya
  else if s = "Grixis" then some .Grixis
  else if s = "Esper" then some .Esper
  else if s = "Bant" then some .Bant
  else if s = "Jund" then some .Jund
  else if s = "Abzan" then some .Abzan
  else if s = "Jeskai" then some .Jeskai
  else if s = "Sultai" then some .Sultai
  else if s = "Mardu" then some .Mardu
  else if s = "Temur" then some .Temur
  else if s = "4c" then some .FourColor
  else if s = "5c" then some .FiveColor
  else none

/-- Model of strum's derived `Display` for `ColorIdentity`: the variant name, except
the `serialize`-annotated variants which print their serialization. -/
def ColorIdentity.toStr : ColorIdentity → String
  | .White => "White"
  | .Black => "Black"
  | .Red => "Red"
  | .Green => "Green"
  | .Blue => "Blue"
  | .Uw => "Uw"
  | .Ub => "Ub"
  | .Ur => "Ur"
  | .Ug => "Ug"
  | .Rg => "Rg"
  | .Rw => "Rw"
  | .Rb => "Rb"
  | .Gw => "Gw"
  | .Gb => "Gb"
  | .Bw => "Bw"
  | .Naya => "Naya"
  | .Grixis => "Grixis"
  | .Esper => "Esper"
  | .Bant => "Bant"
  | .Jund => "Jund"
  | .Abzan => "Abzan"
  | .Jeskai => "Jeskai"
  | .Sultai => "Sultai"
  | .Mardu => "Mardu"
  | .Temur => "Temur"
  | .FourColor => "4c"
  | .FiveColor => "5c"

/-- The `Archetype` enum, in declaration order. -/
inductive Archetype
  | Aggro | Midrange | Combo | Legends | Toxic | Atraxa | Tempo
  | Vehicles | Domain
  deriving DecidableEq, Repr

/-- Model of strum's derived `Display` for `Archetype`: the variant name. -/
def Archetype.toStr : Archetype → String
  | .Aggro => "Aggro"
  | .Midrange => "Midrange"
  | .Combo => "Combo"
  | .Legends => "Legends"
  | .Toxic => "Toxic"
  | .Atraxa => "Atraxa"
  | .Tempo => "Tempo"
  | .Vehicles => "Vehicles"
  | .Domain => "Domain"

/-- The Rust `s.to_uppercase()` call modelled as ASCII per-character
uppercasing (the match targets in `Archetype::from_str` are all ASCII). -/
def strToUpper (s : String) : String :=
  String.mk (s.data.map Char.toUpper)

/-- Model of `Archetype::from_str`: uppercases the input and matches the
seven recognized tokens; every other string (including the empty string)
falls through to `Ok(Archetype::Midrange)`.  The Rust function returns
`Result` but every arm is `Ok`. -/
def Archetype.fromStr (s : String) : Except GameParseError Archetype :=
  if strToUpper s = "AGGRO" then .ok .Aggro
  else if strToUpper s = "MIDRANGE" then .ok .Midrange
  else if strToUpper s = "COMBO" then .ok .Combo
  else if strToUpper s = "LEGENDS" then .ok .Legends
  else if strToUpper s = "TOXIC" then .ok .Toxic
  else if strToUpper s = "ATRAXA" then .ok .Atraxa
  else if strToUpper s = "TEMPO" then .ok .Tempo
  else .ok .Midrange

/-- The uppercased tokens recognized by `Archetype::from_str`. -/
def archetypeTokens : List String :=
  ["AGGRO", "MIDRANGE", "COMBO", "LEGENDS", "TOXIC", "ATRAXA", "TEMPO"]

/-- The tokens accepted by `ColorIdentity::from_str`. -/
def colorTokens : List String :=
  ["White", "Black", "Red", "Green", "Blue",
   "Uw", "Ub", "Ur", "Ug", "Rg", "Rw", "Rb", "Gw", "Gb", "Bw",
   "Naya", "Grixis", "Esper", "Bant", "Jund",
   "Abzan", "Jeskai", "Sultai", "Mardu", "Temur", "4c", "5c"]

/-- Rust `str::split(' ')` on the character list of a string: splits at every
single space, keeping empty segments; the result is never empty. -/
def splitSpace : List Char → List (List Char)
  | [] => [[]]
  | c :: cs =>
    if c = ' ' then [] :: splitSpace cs
    else
      match splitSpace cs with
      | p :: ps => (c :: p) :: ps
      | [] => [[c]]

/-- The `Deck` type: a color identity plus an archetype. -/
structure Deck where
  color_id : ColorIdentity
  archetype : Archetype
  deriving DecidableEq, Repr

/-- Model of `Deck::new`: direct construction, defaulting a missing
archetype to `Midrange`. -/
def Deck.new (color_id : ColorIdentity) (archetype : Option Archetype) : Deck :=
  { color_id, archetype := archetype.getD .Midrange }

/-- Model of `Deck::from_str`: split on `' '`, parse the first part as a color
(failure propagates, converted to `StrumError` by the `From` impl), parse
the second part (or `""` when absent) as an archetype (never fails). -/
def Deck.fromStr (s : String) : Except GameParseError Deck :=
  let parts := (splitSpace s.data).map String.mk
  match ColorIdentity.fromStr (parts.getD 0 "") with
  | none => .error .StrumError
  | some color_id =>
    match Archetype.fromStr (parts.getD 1 "") with
    | .error e => .error e
    | .ok archetype => .ok { color_id, archetype }

/-- The `GameLog` type: one raw CSV row (`u32` counters as `Nat`). -/
structure GameLog where
  player : String
  deck : String
  won : Nat
  lost : Nat
  opp_deck : String
  notes : String
  deriving DecidableEq, Repr

/-- The `Matchup` type: a directional win/loss accumulator. -/
structure Matchup where
  deck : Deck
  opponent : Deck
  win : Nat
  loss : Nat
  deriving DecidableEq, Repr

/-- Model of `Matchup::new`: zeroed counts. -/
def Matchup.new (deck opponent : Deck) : Matchup :=
  { deck, opponent, win := 0, loss := 0 }

/-- Model of `Matchup::key`. -/
def Matchup.key (m : Matchup) : Deck × Deck :=
  (m.deck, m.opponent)

/-- Model of `Matchup::complement`: swap deck/opponent and win/loss. -/
def Matchup.complement (m : Matchup) : Matchup :=
  { deck := m.opponent, opponent := m.deck, win := m.loss, loss := m.win }

/-- Model of `Matchup::add(&mut self, other)`: returned as (post-state of `self`,
error).  On matching keys the counts are summed and the result is `Ok`
(`none`); on mismatched keys `self` is untouched and
`Err(GameParseError::Other)` is returned. -/
def Matchup.add (self other : Matchup) : Matchup × Option GameParseError :=
  if self.key = other.key then
    ({ self with win := self.win + other.win, loss := self.loss + other.loss },
      none)
  else
    (self, some .Other)

/-- Model of `GameLog::matchups`: parse both deck fields; on double success emit the
complement followed by the own-perspective matchup, otherwise emit nothing
(the Rust code also prints a diagnostic in that case). -/
def GameLog.matchups (g : GameLog) : List Matchup :=
  let deck := (Deck.fromStr g.deck).toOption
  let opponent := (Deck.fromStr g.opp_deck).toOption
  let player_won := g.won > g.lost
  match deck, opponent with
  | some player_deck, some opp_deck =>
    let matchup : Matchup :=
      { deck := player_deck
        opponent := opp_deck
        win := if player_won then 1 else 0
        loss := if player_won then 0 else 1 }
    [matchup.complement, matchup]
  | _, _ => []

/-- One `matchups.entry(key).or_insert(Matchup::new(..)).add(*matchup)` step
of the aggregation loop in `main`, on an association-list model of the
`BTreeMap` (the map's iteration order does not affect the sums studied
below; key uniqueness is what matters and is preserved).  When the key is
absent a zeroed matchup is inserted and merged with `m`; when present the
stored matchup is merged in place, and a failing merge leaves it unchanged
(the code then logs an error). -/
def observe : List ((Deck × Deck) × Matchup) → Matchup → List ((Deck × Deck) × Matchup)
  | [], m => [(m.key, ((Matchup.new m.deck m.opponent).add m).1)]
  | kv :: rest, m =>
    if kv.1 = m.key then (kv.1, ((kv.2).add m).1) :: rest
    else kv :: observe rest m

/-- The aggregation loop of `main`: fold every game's matchups into the
table, starting from the empty table. -/
def processGames (games : List GameLog) : List ((Deck × Deck) × Matchup) :=
  games.foldl (fun table game => game.matchups.foldl observe table) []

/-- Model of `deck_record`: filter the entries whose key's first component
equals `deck` and fold-sum their wins and losses (the source prints the
resulting pair; the model returns it). -/
def deck_record (matchups : List ((Deck × Deck) × Matchup)) (deck : Deck) :
    Nat × Nat :=
  (matchups.filter (fun kv => kv.1.1 = deck)).foldl
    (fun p kv => (p.1 + kv.2.win, p.2 + kv.2.loss)) (0, 0)

/-- Every stored matchup's own key fields agree with its map key;
`main` only ever inserts entries satisfying this. -/
def TableWF (table : List ((Deck × Deck) × Matchup)) : Prop :=
  ∀ kv ∈ table, Matchup.key kv.2 = kv.1

/-- Total of wins plus losses over all entries of a table. -/
def tableTotal (table : List ((Deck × Deck) × Matchup)) : Nat :=
  (table.map (fun kv => kv.2.win + kv.2.loss)).sum

theorem splitSpace_ne_nil (l : List Char) : splitSpace l ≠ [] := by
  cases l with
  | nil => simp [splitSpace]
  | cons c cs =>
    unfold splitSpace
    split_ifs
    · simp
    · cases h : splitSpace cs <;> simp

theorem splitSpace_append_space (l : List Char) :
    splitSpace (l ++ [' ']) = splitSpace l ++ [[]] := by
  induction l with
  | nil => simp [splitSpace]
  | cons c cs ih =>
    by_cases hc : c = ' '
    · simp [splitSpace, hc, ih]
    · obtain ⟨p, ps, hps⟩ := List.exists_cons_of_ne_nil (splitSpace_ne_nil cs)
      simp [splitSpace, hc, ih, hps]

theorem stringMk_nil : String.mk [] = "" := rfl

theorem deck_fromStr_trailing_space (s : String) :
    Deck.fromStr (s ++ " ") = Deck.fromStr s := by
  have hdata : (s ++ " ").data = s.data ++ [' '] := by
    cases s
    rfl
  unfold Deck.fromStr
  rw [hdata, splitSpace_append_space]
  obtain ⟨p, ps, hps⟩ := List.exists_cons_of_ne_nil (splitSpace_ne_nil s.data)
  rw [hps]
  cases ps <;> simp [List.getD, stringMk_nil]

theorem deck_fromStr_leading_space (s : String) :
    Deck.fromStr (" " ++ s) = .error .StrumError := by
  have hdata : (" " ++ s).data = ' ' :: s.data := by
    cases s
    rfl
  have hsplit : splitSpace (' ' :: s.data) = [] :: splitSpace s.data := by
    simp [splitSpace]
  have hempty : ColorIdentity.fromStr "" = none := by decide
  unfold Deck.fromStr
  rw [hdata, hsplit]
  simp [stringMk_nil, hempty]

/-- C6 counterexample: color parsing is not case-insensitive — the canonical
token "White" parses, but its case variants "white" and "WHITE" fail. -/
theorem colorIdentity_not_case_insensitive :
    ColorIdentity.fromStr "White" = some .White ∧
    ColorIdentity.fromStr "white" = none ∧
    ColorIdentity.fromStr "WHITE" = none := by decide

theorem colorIdentity_fromStr_eq_none (s : String) (hs : s ∉ colorTokens) :
    ColorIdentity.fromStr s = none := by
  simp only [colorTokens, List.mem_cons, List.not_mem_nil, or_false,
    not_or] at hs
  obtain ⟨h1, h2, h3, h4, h5, h6, h7, h8, h9, h10, h11, h12, h13, h14,
    h15, h16, h17, h18, h19, h20, h21, h22, h23, h24, h25, h26, h27⟩ := hs
  unfold ColorIdentity.fromStr
  rw [if_neg h1, if_neg h2, if_neg h3, if_neg h4, if_neg h5, if_neg h6,
    if_neg h7, if_neg h8, if_neg h9, if_neg h10, if_neg h11, if_neg h12,
    if_neg h13, if_neg h14, if_neg h15, if_neg h16, if_neg h17, if_neg h18,
    if_neg h19, if_neg h20, if_neg h21, if_neg h22, if_neg h23, if_neg h24,
    if_neg h25, if_neg h26, if_neg h27]

theorem colorIdentity_fromStr_of_mem (s : String) (hs : s ∈ colorTokens) :
    ∃ c, ColorIdentity.fromStr s = some c ∧ ColorIdentity.toStr c = s := by
  simp only [colorTokens, List.mem_cons, List.not_mem_nil, or_false] at hs
  rcases hs with rfl | rfl | rfl | rfl | rfl | rfl | rfl | rfl | rfl | rfl |
    rfl | rfl | rfl | rfl | rfl | rfl | rfl | rfl | rfl | rfl | rfl | rfl |
    rfl | rfl | rfl | rfl | rfl <;>
    exact ⟨_, rfl, rfl⟩

/-- C6 (amended): color parsing is case-sensitive — a string parses
successfully if and only if it is exactly one of the canonical tokens (the
variant names plus "4c"/"5c"); in particular every other case variant
fails. -/
theorem colorIdentity_fromStr_exact (s : String) :
    (ColorIdentity.fromStr s).isSome ↔ s ∈ colorTokens := by
  constructor
  · intro h
    by_contra hs
    rw [colorIdentity_fromStr_eq_none s hs] at h
    exact Bool.noConfusion h
  · intro hs
    obtain ⟨c, hc, -⟩ := colorIdentity_fromStr_of_mem s hs
    rw [hc]
    rfl

/-- C8: color formatting inverts color parsing — whenever a token parses to
a `ColorIdentity`, formatting that identity returns the token itself (its
canonical form, since only canonical tokens parse). -/
theorem colorIdentity_roundtrip (s : String) (c : ColorIdentity)
    (h : ColorIdentity.fromStr s = some c) : c.toStr = s := by
  by_cases hs : s ∈ colorTokens
  · obtain ⟨c', hc', hts⟩ := colorIdentity_fromStr_of_mem s hs
    rw [h] at hc'
    injection hc' with hc'
    rw [hc']
    exact hts
  · rw [colorIdentity_fromStr_eq_none s hs] at h
    exact Option.noConfusion h

theorem colorIdentity_roundtrip_witness :
    ColorIdentity.fromStr "4c" = some .FourColor ∧
    ColorIdentity.toStr .FourColor = "4c" :=
  ⟨by decide, colorIdentity_roundtrip "4c" .FourColor (by decide)⟩

/-- C7 counterexample: "White" parses as a deck, but " White" (one leading
space added) fails to parse instead of parsing to the same deck. -/
theorem deck_fromStr_leading_space_fails :
    Deck.fromStr "White" = .ok ⟨.White, .Midrange⟩ ∧
    Deck.fromStr " White" = .error .StrumError := by decide

/-- C7 (amended): trailing whitespace is tolerated — appending a space
never changes the result of deck parsing — but leading whitespace is not:
prepending a space makes the color token empty, so deck parsing always
fails with a color (strum) parse error. -/
theorem deck_fromStr_whitespace (s : String) :
    Deck.fromStr (s ++ " ") = Deck.fromStr s ∧
    Deck.fromStr (" " ++ s) = .error .StrumError :=
  ⟨deck_fromStr_trailing_space s, deck_fromStr_leading_space s⟩

/-- C1: when both deck text fields parse, normalization emits exactly two
matchups: the own-perspective matchup (deck = own, opponent = opp) and its
exact complement, obtained by swapping deck with opponent and win with
loss. -/
theorem matchups_emits_pair_with_complement (g : GameLog) (d o : Deck)
    (hd : Deck.fromStr g.deck = .ok d) (ho : Deck.fromStr g.opp_deck = .ok o) :
    ∃ m : Matchup, g.matchups = [m.complement, m] ∧
      m.deck = d ∧ m.opponent = o ∧
      m.complement =
        { deck := o, opponent := d, win := m.loss, loss := m.win } := by
  refine ⟨{ deck := d, opponent := o,
            win := if g.won > g.lost then 1 else 0,
            loss := if g.won > g.lost then 0 else 1 }, ?_, rfl, rfl, rfl⟩
  simp [GameLog.matchups, hd, ho, Except.toOption]

theorem matchups_emits_pair_with_complement_witness :
    ∃ m : Matchup,
      (GameLog.mk "Grant" "White Aggro" 2 1 "Rb Midrange" "").matchups
        = [m.complement, m] ∧
      m.deck = ⟨.White, .Aggro⟩ ∧ m.opponent = ⟨.Rb, .Midrange⟩ ∧
      m.complement =
        { deck := Deck.mk .Rb .Midrange, opponent := Deck.mk .White .Aggro,
          win := m.loss, loss := m.win } :=
  matchups_emits_pair_with_complement _ _ _ (by decide) (by decide)

/-- C2: when both deck text fields parse, the own-perspective matchup has
win = 1 and loss = 0 exactly when `won > lost`, and win = 0 and loss = 1
otherwise; in particular a tie is recorded as a loss for the own side. -/
theorem matchups_outcome_rule (g : GameLog) (d o : Deck)
    (hd : Deck.fromStr g.deck = .ok d) (ho : Deck.fromStr g.opp_deck = .ok o) :
    ∃ m : Matchup, g.matchups = [m.complement, m] ∧
      m.deck = d ∧ m.opponent = o ∧
      (m.win = 1 ∧ m.loss = 0 ↔ g.won > g.lost) ∧
      (m.win = 0 ∧ m.loss = 1 ↔ ¬ g.won > g.lost) := by
  refine ⟨{ deck := d, opponent := o,
            win := if g.won > g.lost then 1 else 0,
            loss := if g.won > g.lost then 0 else 1 }, ?_, rfl, rfl, ?_, ?_⟩
  · simp [GameLog.matchups, hd, ho, Except.toOption]
  · by_cases h : g.won > g.lost <;> simp [h]
  · by_cases h : g.won > g.lost <;> simp [h]

theorem matchups_outcome_rule_witness :
    ∃ m : Matchup,
      (GameLog.mk "Noah" "White Aggro" 1 1 "Rb Midrange" "").matchups
        = [m.complement, m] ∧
      m.deck = ⟨.White, .Aggro⟩ ∧ m.opponent = ⟨.Rb, .Midrange⟩ ∧
      (m.win = 1 ∧ m.loss = 0 ↔ (1 : Nat) > 1) ∧
      (m.win = 0 ∧ m.loss = 1 ↔ ¬ (1 : Nat) > 1) :=
  matchups_outcome_rule _ _ _ (by decide) (by decide)

/-- C3: when either deck text field fails to parse, normalization returns
the empty list of matchups — never a single one-sided matchup. -/
theorem matchups_empty_on_parse_failure (g : GameLog)
    (h : (∃ e, Deck.fromStr g.deck = .error e) ∨
         (∃ e, Deck.fromStr g.opp_deck = .error e)) :
    g.matchups = [] := by
  rcases h with ⟨e, he⟩ | ⟨e, he⟩ <;>
    simp [GameLog.matchups, he, Except.toOption]

theorem matchups_empty_on_parse_failure_witness :
    (GameLog.mk "Grant" "Zz Foo" 2 0 "Rb Midrange" "").matchups = [] :=
  matchups_empty_on_parse_failure _ (Or.inl ⟨.StrumError, by decide⟩)

/-- C4: merging `m2` into `m1` fails exactly when their (deck, opponent)
keys differ; on failure `m1` is left unchanged, and on success `m2`'s win
and loss counts are added into `m1`'s. -/
theorem matchup_add_spec (m1 m2 : Matchup) :
    (((m1).add m2).2.isSome ↔ m1.key ≠ m2.key) ∧
    (((m1).add m2).2.isSome → ((m1).add m2).1 = m1) ∧
    (m1.key = m2.key →
      ((m1).add m2).2 = none ∧
      ((m1).add m2).1 =
        { m1 with win := m1.win + m2.win, loss := m1.loss + m2.loss }) := by
  unfold Matchup.add
  by_cases h : m1.key = m2.key <;> simp [h]

theorem matchup_add_spec_witness :
    ((Matchup.mk ⟨.White, .Aggro⟩ ⟨.Rb, .Midrange⟩ 1 0).add
        (Matchup.mk ⟨.White, .Aggro⟩ ⟨.Rb, .Midrange⟩ 0 1)).2 = none ∧
    ((Matchup.mk ⟨.White, .Aggro⟩ ⟨.Rb, .Midrange⟩ 1 0).add
        (Matchup.mk ⟨.White, .Aggro⟩ ⟨.Rb, .Midrange⟩ 0 1)).1
      = Matchup.mk ⟨.White, .Aggro⟩ ⟨.Rb, .Midrange⟩ 1 1 ∧
    ((Matchup.mk ⟨.White, .Aggro⟩ ⟨.Rb, .Midrange⟩ 1 0).add
        (Matchup.mk ⟨.Rb, .Midrange⟩ ⟨.White, .Aggro⟩ 0 1)).1
      = Matchup.mk ⟨.White, .Aggro⟩ ⟨.Rb, .Midrange⟩ 1 0 := by
  obtain ⟨-, -, h3⟩ :=
    matchup_add_spec (Matchup.mk ⟨.White, .Aggro⟩ ⟨.Rb, .Midrange⟩ 1 0)
      (Matchup.mk ⟨.White, .Aggro⟩ ⟨.Rb, .Midrange⟩ 0 1)
  obtain ⟨-, h2, -⟩ :=
    matchup_add_spec (Matchup.mk ⟨.White, .Aggro⟩ ⟨.Rb, .Midrange⟩ 1 0)
      (Matchup.mk ⟨.Rb, .Midrange⟩ ⟨.White, .Aggro⟩ 0 1)
  obtain ⟨ha, hb⟩ := h3 (by decide)
  exact ⟨ha, hb, h2 (by decide)⟩

/-- C5: archetype parsing never fails, and any input whose uppercasing is
not one of the seven recognized tokens (in particular the empty string)
yields the default `Midrange`. -/
theorem archetype_fromStr_total (s : String) :
    (∃ a, Archetype.fromStr s = .ok a) ∧
    (strToUpper s ∉ archetypeTokens → Archetype.fromStr s = .ok .Midrange) := by
  unfold Archetype.fromStr
  constructor
  · split_ifs <;> exact ⟨_, rfl⟩
  · intro h
    simp only [archetypeTokens, List.mem_cons, List.not_mem_nil, or_false,
      not_or] at h
    split_ifs <;> simp_all

theorem archetype_fromStr_total_witness :
    (∃ a, Archetype.fromStr "zzz" = .ok a) ∧
    Archetype.fromStr "zzz" = .ok .Midrange ∧
    Archetype.fromStr "" = .ok .Midrange :=
  ⟨(archetype_fromStr_total "zzz").1,
   (archetype_fromStr_total "zzz").2 (by decide),
   (archetype_fromStr_total "").2 (by decide)⟩

/-- C10: archetype parsing never produces `Vehicles` or `Domain`; the exact
tokens "Vehicles" and "Domain" (the `Display` output of those variants)
parse to the `Midrange` default instead, so those two variants do not
round-trip through parsing. -/
theorem archetype_fromStr_never_vehicles_domain :
    (∀ s a, Archetype.fromStr s = .ok a → a ≠ .Vehicles ∧ a ≠ .Domain) ∧
    Archetype.fromStr (Archetype.toStr .Vehicles) = .ok .Midrange ∧
    Archetype.fromStr (Archetype.toStr .Domain) = .ok .Midrange := by
  refine ⟨?_, by decide, by decide⟩
  intro s a h
  unfold Archetype.fromStr at h
  split_ifs at h <;> (injection h with h; subst h; exact ⟨by decide, by decide⟩)

theorem archetype_fromStr_never_vehicles_domain_witness :
    Archetype.Midrange ≠ .Vehicles ∧ Archetype.Midrange ≠ .Domain :=
  archetype_fromStr_never_vehicles_domain.1 "VEHICLES" .Midrange (by decide)

theorem foldl_win_loss (l : List ((Deck × Deck) × Matchup)) (a b : Nat) :
    l.foldl (fun p kv => (p.1 + kv.2.win, p.2 + kv.2.loss)) (a, b) =
      (a + (l.map (fun kv => kv.2.win)).sum,
       b + (l.map (fun kv => kv.2.loss)).sum) := by
  induction l generalizing a b with
  | nil => simp
  | cons kv rest ih => simp [ih, Nat.add_assoc]

theorem deck_record_eq_sums (l : List ((Deck × Deck) × Matchup)) (d : Deck) :
    deck_record l d =
      (((l.filter (fun kv => kv.1.1 = d)).map (fun kv => kv.2.win)).sum,
       ((l.filter (fun kv => kv.1.1 = d)).map (fun kv => kv.2.loss)).sum) := by
  unfold deck_record
  rw [foldl_win_loss]
  simp

theorem sum_map_add_split {α : Type} (f g : α → Nat) (l : List α) :
    (l.map (fun a => f a + g a)).sum = (l.map f).sum + (l.map g).sum := by
  induction l with
  | nil => simp
  | cons a l ih => simp [ih]; omega

theorem sum_map_ite {κ : Type} [DecidableEq κ] (k0 : κ) (v : Nat)
    (ks : List κ) (hnd : ks.Nodup) :
    (ks.map (fun k => if k0 = k then v else 0)).sum
      = if k0 ∈ ks then v else 0 := by
  induction ks with
  | nil => simp
  | cons k ks ih =>
    rcases List.nodup_cons.mp hnd with ⟨hk, hnd'⟩
    by_cases h : k0 = k
    · subst h
      simp [ih hnd', hk]
    · simp [h, ih hnd']

theorem sum_fiberwise {α κ : Type} [DecidableEq κ] (f : α → κ) (w : α → Nat)
    (l : List α) (ks : List κ) (hnd : ks.Nodup) (hcov : ∀ a ∈ l, f a ∈ ks) :
    (ks.map (fun k => ((l.filter (fun a => f a = k)).map w).sum)).sum
      = (l.map w).sum := by
  induction l with
  | nil => simp
  | cons a l ih =>
    have hfc : ∀ k : κ,
        (((a :: l).filter (fun x => f x = k)).map w).sum
          = (if f a = k then w a else 0)
            + ((l.filter (fun x => f x = k)).map w).sum := by
      intro k
      by_cases h : f a = k <;> simp [List.filter_cons, h]
    simp only [hfc]
    rw [sum_map_add_split, sum_map_ite _ _ ks hnd,
      if_pos (hcov a (List.mem_cons_self a l)),
      ih (fun x hx => hcov x (List.mem_cons_of_mem a hx))]
    simp

theorem matchup_add_fst_key (a b : Matchup) : ((a.add b).1).key = a.key := by
  unfold Matchup.add
  split_ifs <;> rfl

theorem observe_tableWF (table : List ((Deck × Deck) × Matchup))
    (m : Matchup) (h : TableWF table) : TableWF (observe table m) := by
  induction table with
  | nil =>
    intro kv hkv
    simp only [observe, List.mem_singleton] at hkv
    subst hkv
    show ((Matchup.new m.deck m.opponent).add m).1.key = m.key
    rw [matchup_add_fst_key]
    rfl
  | cons kv0 rest ih =>
    intro kv hkv
    unfold observe at hkv
    split_ifs at hkv with hk
    · rcases List.mem_cons.mp hkv with rfl | hmem
      · rw [matchup_add_fst_key]
        exact h kv0 (List.mem_cons_self kv0 rest)
      · exact h kv (List.mem_cons_of_mem kv0 hmem)
    · rcases List.mem_cons.mp hkv with rfl | hmem
      · exact h kv (List.mem_cons_self kv rest)
      · exact ih (fun x hx => h x (List.mem_cons_of_mem kv0 hx)) kv hmem

theorem observe_total (table : List ((Deck × Deck) × Matchup))
    (m : Matchup) (h : TableWF table) :
    tableTotal (observe table m) = tableTotal table + (m.win + m.loss) := by
  induction table with
  | nil =>
    simp [observe, tableTotal, Matchup.add, Matchup.new, Matchup.key]
  | cons kv rest ih =>
    unfold observe
    split_ifs with hk
    · have hkey : kv.2.key = m.key := by
        rw [h kv (List.mem_cons_self kv rest), hk]
      unfold tableTotal Matchup.add
      rw [if_pos hkey]
      simp [tableTotal]
      omega
    · have hr := ih (fun x hx => h x (List.mem_cons_of_mem kv hx))
      unfold tableTotal at hr ⊢
      simp only [List.map_cons, List.sum_cons, hr]
      omega

theorem foldl_observe_total (ms : List Matchup) :
    ∀ table, TableWF table →
      tableTotal (ms.foldl observe table)
          = tableTotal table + (ms.map (fun m => m.win + m.loss)).sum ∧
        TableWF (ms.foldl observe table) := by
  induction ms with
  | nil => intro table h; exact ⟨by simp, h⟩
  | cons m ms ih =>
    intro table h
    have hwf := observe_tableWF table m h
    obtain ⟨h1, h2⟩ := ih (observe table m) hwf
    refine ⟨?_, h2⟩
    simp only [List.foldl_cons, h1, observe_total table m h,
      List.map_cons, List.sum_cons]
    omega

/-- Whether both deck fields of a record parse (i.e. whether `matchups`
emits the pair). -/
def goodRecord (g : GameLog) : Bool :=
  (Deck.fromStr g.deck).toOption.isSome
    && (Deck.fromStr g.opp_deck).toOption.isSome

theorem game_matchups_total (g : GameLog) :
    ((g.matchups).map (fun m => m.win + m.loss)).sum
      = if goodRecord g then 2 else 0 := by
  unfold GameLog.matchups goodRecord
  rcases hd : (Deck.fromStr g.deck).toOption with _ | d <;>
    rcases ho : (Deck.fromStr g.opp_deck).toOption with _ | o <;>
      simp [Matchup.complement]
  by_cases hw : g.won > g.lost <;> simp [hw]

theorem processGames_total (games : List GameLog) :
    tableTotal (processGames games) = 2 * games.countP goodRecord := by
  suffices h : ∀ table, TableWF table →
      tableTotal (games.foldl (fun t g => g.matchups.foldl observe t) table)
          = tableTotal table + 2 * games.countP goodRecord ∧
        TableWF (games.foldl (fun t g => g.matchups.foldl observe t) table) by
    have := (h [] (by intro kv hkv; cases hkv)).1
    simpa [processGames, tableTotal] using this
  induction games with
  | nil => intro table h; exact ⟨by simp, h⟩
  | cons g games ih =>
    intro table h
    obtain ⟨h1, h2⟩ := foldl_observe_total g.matchups table h
    obtain ⟨h3, h4⟩ := ih (g.matchups.foldl observe table) h2
    refine ⟨?_, h4⟩
    simp only [List.foldl_cons, h3, h1, game_matchups_total g,
      List.countP_cons]
    by_cases hg : goodRecord g
    · simp only [hg, if_true, if_pos]
      omega
    · simp only [hg, if_false, Bool.false_eq_true]
      omega

/-- C9: summing `deck_record` (wins plus losses) over all decks that appear
as the own side in the aggregated table counts every successfully
normalized game exactly twice — once per side. -/
theorem deck_vs_field_total (games : List GameLog) :
    (((processGames games).map (fun kv => kv.1.1)).dedup.map
        (fun d => (deck_record (processGames games) d).1
          + (deck_record (processGames games) d).2)).sum
      = 2 * games.countP (fun g =>
          (Deck.fromStr g.deck).toOption.isSome
            && (Deck.fromStr g.opp_deck).toOption.isSome) := by
  have hpt : ∀ d, (deck_record (processGames games) d).1
      + (deck_record (processGames games) d).2
      = (((processGames games).filter (fun kv => kv.1.1 = d)).map
          (fun kv => kv.2.win + kv.2.loss)).sum := by
    intro d
    rw [deck_record_eq_sums]
    exact (sum_map_add_split _ _ _).symm
  simp only [hpt]
  have hfib := sum_fiberwise (fun kv => kv.1.1)
    (fun kv => kv.2.win + kv.2.loss) (processGames games)
    ((processGames games).map (fun kv => kv.1.1)).dedup
    (List.nodup_dedup _)
    (fun kv hkv => List.mem_dedup.mpr (List.mem_map_of_mem _ hkv))
  rw [hfib, ← tableTotal, processGames_total]
  rfl

end Protour
